import Mathlib

/-!
Verification development for the keev request-routing and dispatch engine
(src/keev/routing.py, application.py, plugins.py, responses.py).

The Python source is shallowly embedded: pure fragments become Lean
functions, the mutable limiter/lifecycle state is passed explicitly, and
Python float timestamps are modelled as rationals.  Dictionaries with
string keys become insertion-ordered association lists with the usual
replace-in-place assignment semantics.
-/

namespace Keev

/-- JSON-like values, standing for the Python objects that response bodies
are built from (serialization itself is the excluded orjson collaborator). -/
inductive JVal where
  | s (v : String)
  | i (v : Int)
  | b (v : Bool)
  | arr (vs : List JVal)
  | obj (fs : List (String × JVal))
  | null

/-- The part of keev.requests.Request that routing reads: scope method,
scope path, and the (lazily read, here already materialized) body bytes. -/
structure Request where
  method : String
  path : String
  body : String := ""
deriving DecidableEq, Repr

/-- Assignment into a Python dict rendered on an association list: an
existing key keeps its position and gets the new value, a new key is
appended. -/
def dictSet : List (String × String) → String → String → List (String × String)
  | [], k, v => [(k, v)]
  | kv :: hs, k, v => if kv.1 = k then (k, v) :: hs else kv :: dictSet hs k v

/-- ASCII lowercasing of one character, as Python str.lower acts on the
ASCII header names and method names used here. -/
def charLower (c : Char) : Char :=
  if 65 ≤ c.toNat ∧ c.toNat ≤ 90 then Char.ofNat (c.toNat + 32) else c

/-- ASCII lowercasing of a string. -/
def strLower (s : String) : String :=
  String.mk (s.toList.map charLower)

/-- Splitting a character list on a separator character, keeping empty
pieces, as Python str.split with an explicit separator does. -/
def splitChars (sep : Char) : List Char → List (List Char)
  | [] => [[]]
  | c :: cs =>
      if c = sep then [] :: splitChars sep cs
      else
        match splitChars sep cs with
        | p :: ps => (c :: p) :: ps
        | [] => [[c]]

/-- Splitting a string on a separator character. -/
def splitOnChar (sep : Char) (s : String) : List String :=
  (splitChars sep s.toList).map String.mk

/-- Lookup in a Python dict rendered on an association list. -/
def dictGet : List (String × String) → String → Option String
  | [], _ => none
  | kv :: hs, k => if kv.1 = k then some kv.2 else dictGet hs k

/-- keev.responses.Response: status code, the private underscore headers
dict (keys stored lowercased), and the content value. -/
structure Response where
  content : JVal
  status : Nat
  hdrs : List (String × String)

/-- Response.__init__: default content-type first (media type or
text/plain), then the custom headers folded in with lowercased keys. -/
def mkResponse (content : JVal) (status : Nat) (headers : List (String × String))
    (mediaType : Option String) : Response :=
  { content := content
    status := status
    hdrs := headers.foldl (fun hs kv => dictSet hs (strLower kv.1) kv.2)
      [("content-type", mediaType.getD "text/plain")] }

/-- Response.add_header: case-insensitive assignment into the stored dict. -/
def Response.addHeader (r : Response) (k v : String) : Response :=
  { r with hdrs := dictSet r.hdrs (strLower k) v }

/-- keev.responses.JSONResponse: a Response with media type application/json. -/
def JSONResponse (content : JVal) (status : Nat) (headers : List (String × String) := []) :
    Response :=
  mkResponse content status headers (some "application/json")

/-- One ASGI message of the ordered two-message send performed by
Response.__call__ (the body chunk carries the content value; byte
encoding is the excluded serialization collaborator). -/
inductive AsgiMessage where
  | start (status : Nat) (headers : List (String × String))
  | bodyChunk (body : JVal) (moreBody : Bool)

/-- Response.__call__: emit the status/header message built from the
stored underscore headers dict, then the body. -/
def Response.emit (r : Response) : List AsgiMessage :=
  [AsgiMessage.start r.status r.hdrs, AsgiMessage.bodyChunk r.content false]

/-- keev.responses.CaseInsensitiveDict.  It subclasses dict but keeps its
own mapping in the attribute underscore store; the inherited dict storage
(written by the non-overridden dict.update) is kept as a separate field. -/
structure CaseInsensitiveDict where
  builtin : List (String × String)
  store : List (String × String)
deriving DecidableEq, Repr

/-- CaseInsensitiveDict.__init__: copy the given mapping into a fresh
store, lowercasing the keys. -/
def mkCaseInsensitiveDict (data : List (String × String)) : CaseInsensitiveDict :=
  { builtin := [], store := data.foldl (fun st kv => dictSet st (strLower kv.1) kv.2) [] }

/-- CaseInsensitiveDict.__setitem__ writes the lowercased key into the store. -/
def CaseInsensitiveDict.setItem (d : CaseInsensitiveDict) (k v : String) :
    CaseInsensitiveDict :=
  { d with store := dictSet d.store (strLower k) v }

/-- CaseInsensitiveDict.__getitem__ reads the lowercased key from the store. -/
def CaseInsensitiveDict.getItem (d : CaseInsensitiveDict) (k : String) : Option String :=
  dictGet d.store (strLower k)

/-- CaseInsensitiveDict.update is not overridden: dict.update fills the
inherited dict storage, not the store that getItem and setItem use. -/
def CaseInsensitiveDict.update (d : CaseInsensitiveDict) (kvs : List (String × String)) :
    CaseInsensitiveDict :=
  { d with builtin := kvs.foldl (fun hs kv => dictSet hs kv.1 kv.2) d.builtin }

/-- Response.headers property: returns CaseInsensitiveDict(self underscore
headers), a fresh copy of the stored dict. -/
def Response.headers (r : Response) : CaseInsensitiveDict :=
  mkCaseInsensitiveDict r.hdrs

/-! ### Path patterns and parameter conversion (keev.routing.Route) -/

/-- Semantic parameter types that Route compilation assigns converters for. -/
inductive PType where
  | str
  | int
  | float
  | bool
deriving DecidableEq, Repr

/-- One piece of a compiled path pattern: a literal piece, or a named
capture compiled from brace-name or brace-name-colon-type to the regex
group matching one or more non-slash characters. -/
inductive Seg where
  | lit (s : String)
  | param (name : String) (t : PType)
deriving DecidableEq, Repr

/-- Numeric value of a digit string. -/
def digitsVal (cs : List Char) : Nat :=
  cs.foldl (fun a c => a * 10 + (c.toNat - 48)) 0

/-- The Python int constructor on a captured piece: an optional sign
followed by at least one digit (whitespace and underscore tolerance of
the full constructor is not exercised by captures and is omitted);
anything else raises ValueError, rendered as none. -/
def pyIntParse (s : String) : Option Int :=
  let rest := s.toList
  let signed : Int × List Char :=
    match rest with
    | ch :: tl => if ch = Char.ofNat 43 then (1, tl) else if ch = Char.ofNat 45 then (-1, tl) else (1, rest)
    | [] => (1, rest)
  if signed.2 ≠ [] ∧ signed.2.all (fun c => c.isDigit) then
    some (signed.1 * (digitsVal signed.2 : Int))
  else none

/-- The Python float constructor on a captured piece, restricted to plain
decimal notation: optional sign, digits, optional point and fraction
digits, at least one digit overall (exponent and special forms omitted). -/
def pyFloatParse (s : String) : Option ℚ :=
  let rest := s.toList
  let signed : ℚ × List Char :=
    match rest with
    | ch :: tl => if ch = Char.ofNat 43 then (1, tl) else if ch = Char.ofNat 45 then (-1, tl) else (1, rest)
    | [] => (1, rest)
  match splitChars (Char.ofNat 46) signed.2 with
  | [whole] =>
      if whole ≠ [] ∧ whole.all (fun c => c.isDigit) then
        some (signed.1 * (digitsVal whole : ℚ))
      else none
  | [whole, frac] =>
      if (whole ++ frac) ≠ [] ∧ (whole ++ frac).all (fun c => c.isDigit) then
        some (signed.1 * ((digitsVal whole : ℚ) + (digitsVal frac : ℚ) / ((10 : ℚ) ^ frac.length)))
      else none
  | _ => none

/-- Values bound to handler keyword arguments. -/
inductive PyVal where
  | str (s : String)
  | int (n : Int)
  | float (q : ℚ)
  | bool (b : Bool)
  | ctxObj (req : Request)
  | requestObj (req : Request)
  | model (name : String) (v : JVal)

/-- The converter Route compile assigns per declared type: int and float
parse (ValueError on failure becomes none), bool compares the lowercased
piece with the word true (never fails), default keeps the string. -/
def convert : PType → String → Option PyVal
  | PType.str, s => some (PyVal.str s)
  | PType.int, s => (pyIntParse s).map PyVal.int
  | PType.float, s => (pyFloatParse s).map PyVal.float
  | PType.bool, s => some (PyVal.bool (strLower s = "true"))

/-- Structural regex phase of Route.match on slash-split pieces: literal
pieces must be equal, a capture group consumes one nonempty piece and
records the raw text with its declared type. -/
def segsExtract : List Seg → List String → Option (List (String × String × PType))
  | [], [] => some []
  | Seg.lit s :: segs, piece :: pieces =>
      if piece = s then segsExtract segs pieces else none
  | Seg.param n t :: segs, piece :: pieces =>
      if piece = "" then none
      else (segsExtract segs pieces).map (fun caps => (n, piece, t) :: caps)
  | _, _ => none

/-- Conversion phase of Route.match over the captured group dict: the
first converter that fails makes the whole match return none. -/
def convertCaps : List (String × String × PType) → Option (List (String × PyVal))
  | [] => some []
  | (n, raw, t) :: caps =>
      match convert t raw, convertCaps caps with
      | some v, some ps => some ((n, v) :: ps)
      | _, _ => none

/-! ### Routes, the router, and dispatch (keev.routing) -/

/-- keev.routing.RateLimit (requests per window, keyed by the given
selector). -/
structure RateLimit where
  requests : Int
  window : Int
  byKey : String := "ip"
deriving DecidableEq, Repr

/-- Identity of a keev.routing.Depends wrapper.  Router.handle_request
never invokes the wrapped callable, so only its identity is needed here. -/
structure Depends where
  name : String
deriving DecidableEq, Repr

/-- The handler facts that Router.handle_request extracts by signature
inspection: whether ctx or request appears among the parameters, the
model-annotated parameters (in signature order, each with the external
pydantic validator for its model), and the function body itself, taking
the keyword-argument dict. -/
structure Handler where
  needsCtx : Bool
  needsRequest : Bool
  bodyModels : List (String × (String → Except String JVal))
  run : List (String × PyVal) → Response

/-- keev.routing.Route after compilation: the compiled pattern, the
allowed methods, and the registration-time configuration that
handle_request consults. -/
structure Route where
  pattern : List Seg
  methods : List String
  handler : Handler
  dependencies : List Depends := []
  rateLimit : Option RateLimit := none

/-- Both phases of Route.match on already-split pieces: full structural
regex match first, then every captured group through its converter. -/
def Route.matchPieces (r : Route) (pieces : List String) : Option (List (String × PyVal)) :=
  (segsExtract r.pattern pieces).bind convertCaps

/-- Route.match: the compiled regex is anchored with an optional trailing
slash, so a path whose last slash-split piece is empty is also tried
without that piece. -/
def Route.matchPath (r : Route) (path : String) : Option (List (String × PyVal)) :=
  let pieces := splitOnChar (Char.ofNat 47) path
  match r.matchPieces pieces with
  | some ps => some ps
  | none =>
      if pieces.getLast? = some "" then r.matchPieces pieces.dropLast else none

/-- keev.routing.Router: the registration-ordered route list plus the
derived method index that add_route keeps in sync. -/
structure Router where
  routes : List Route
  methodRoutes : String → List Route

/-- Router.__init__ with no routes. -/
def Router.empty : Router :=
  { routes := [], methodRoutes := fun _ => [] }

/-- Router.add_route appends to the route list and to the index bucket of
each of the route methods. -/
def Router.addRoute (router : Router) (r : Route) : Router :=
  { routes := router.routes ++ [r]
    methodRoutes := fun m =>
      if m ∈ r.methods then router.methodRoutes m ++ [r] else router.methodRoutes m }

/-- A router built by registering the given routes in order. -/
def mkRouter (rs : List Route) : Router :=
  rs.foldl Router.addRoute Router.empty

/-- Path normalization at the top of handle_request: strip trailing
slashes, an empty result becomes the root path. -/
def normalizePath (p : String) : String :=
  let stripped := String.mk ((p.toList.reverse.dropWhile (fun c => c = Char.ofNat 47)).reverse)
  if stripped = "" then "/" else stripped

/-- The first loop of handle_request: try each candidate route in order
and keep the first whose match is not None. -/
def findMatch : List Route → String → Option (Route × List (String × PyVal))
  | [], _ => none
  | r :: rs, path =>
      match r.matchPath path with
      | some ps => some (r, ps)
      | none => findMatch rs path

/-- The fallback scan of handle_request: the union of methods of every
route for which the Python condition if route.match(path) holds, that is
whose match returns a truthy (nonempty) parameter dict.  The union is
accumulated in first-seen order, standing for the unordered Python set. -/
def allowedMethodsFor (routes : List Route) (path : String) : List String :=
  routes.foldl
    (fun acc r =>
      match r.matchPath path with
      | some ps => if ps.isEmpty then acc else acc ++ r.methods.filter (fun m => ¬ acc.contains m)
      | none => acc)
    []

/-- The handler-argument dict built on a match: path parameters, then
RequestContext or the request when the signature declares ctx or request,
then the body of each model-annotated parameter not already bound,
validated externally (a failure raises ValidationError). -/
def buildKwargs (h : Handler) (params : List (String × PyVal)) (req : Request) :
    Except String (List (String × PyVal)) :=
  let base :=
    if h.needsCtx then params ++ [("ctx", PyVal.ctxObj req)]
    else if h.needsRequest then params ++ [("request", PyVal.requestObj req)]
    else params
  h.bodyModels.foldlM
    (fun acc nv =>
      if acc.any (fun kv => kv.1 = nv.1) then pure acc
      else
        match nv.2 req.body with
        | Except.ok jv => pure (acc ++ [(nv.1, PyVal.model nv.1 jv)])
        | Except.error e => Except.error e)
    base

/-- The method-filtered first-match selection of handle_request. -/
def Router.dispatch (router : Router) (req : Request) :
    Option (Route × List (String × PyVal)) :=
  findMatch (router.methodRoutes req.method) (normalizePath req.path)

/-- Router.handle_request: normalize the path, take the first
method-filtered match and run its handler on the built arguments (a
ValidationError becomes 422); with no such match, answer 405 with the
truthy-match method union when it is nonempty and 404 otherwise.  No
rate limiting and no dependency resolution appear anywhere on this path,
mirroring the source. -/
def Router.handleRequest (router : Router) (req : Request) : Response :=
  let path := normalizePath req.path
  match router.dispatch req with
  | some rp =>
      match buildKwargs rp.1.handler rp.2 req with
      | Except.ok kwargs => rp.1.handler.run kwargs
      | Except.error e => JSONResponse (JVal.obj [("error", JVal.s e)]) 422
  | none =>
      let allowed := allowedMethodsFor router.routes path
      if ¬ allowed.isEmpty then
        JSONResponse
          (JVal.obj [("error", JVal.s "Method Not Allowed"),
                     ("allowed_methods", JVal.arr (allowed.map JVal.s))])
          405 [("Allow", String.intercalate ", " allowed)]
      else
        JSONResponse (JVal.obj [("error", JVal.s "Not Found")]) 404

/-! ### Rate limiter (keev.routing.RateLimiter) -/

/-- Pointwise update of the defaultdict mapping keys to timestamp lists. -/
def storeSet (st : String → List ℚ) (key : String) (v : List ℚ) : String → List ℚ :=
  fun k => if k = key then v else st k

/-- RateLimiter.is_allowed: prune the key entry to timestamps strictly
younger than now minus window, reject when the pruned list has reached
the limit (the pruned list is still stored), otherwise record now and
allow.  Timestamps are rationals standing for time.time floats. -/
def RateLimiter.isAllowed (st : String → List ℚ) (key : String) (lim : RateLimit)
    (now : ℚ) : Bool × (String → List ℚ) :=
  let pruned := (st key).filter (fun ts => now - ts < (lim.window : ℚ))
  if lim.requests ≤ (pruned.length : Int) then
    (false, storeSet st key pruned)
  else
    (true, storeSet st key (pruned ++ [now]))

/-- A sequence of is_allowed checks against one key at the given times,
threading the limiter state and collecting the verdicts. -/
def runCalls (st : String → List ℚ) (key : String) (lim : RateLimit) :
    List ℚ → List Bool × (String → List ℚ)
  | [] => ([], st)
  | t :: ts =>
      let step := RateLimiter.isAllowed st key lim t
      let rest := runCalls step.2 key lim ts
      (step.1 :: rest.1, rest.2)

/-! ### Middleware chain and Application dispatch (keev.application) -/

/-- A middleware: a callable taking the request and the continuation. -/
structure Middleware where
  run : Request → (Request → Response) → Response

/-- The middleware loop of Application.handle_request: iterate the
registered list in reverse and call each middleware with a continuation
that returns the single already-computed response. -/
def applyMiddlewares (mws : List Middleware) (req : Request) (base : Response) : Response :=
  mws.reverse.foldl (fun resp mw => mw.run req (fun _ => resp)) base

/-- One plugin of the optional plugin subsystem: the pre and post request
hooks, each either completing or raising (keev.plugins.Plugin). -/
structure Plugin where
  preRequest : Request → Except String Unit
  postRequest : Request → Response → Except String Unit

/-- PluginManager.run_pre_request: every hook runs in registration order,
an exception from a hook is caught and logged and the loop continues; the
collected log lines are returned, nothing propagates. -/
def runPreRequest (plugins : List Plugin) (req : Request) : List String :=
  plugins.foldl
    (fun logs p =>
      match p.preRequest req with
      | Except.ok _ => logs
      | Except.error e => logs ++ [e])
    []

/-- PluginManager.run_post_request, identical swallow-and-log policy. -/
def runPostRequest (plugins : List Plugin) (req : Request) (resp : Response) : List String :=
  plugins.foldl
    (fun logs p =>
      match p.postRequest req resp with
      | Except.ok _ => logs
      | Except.error e => logs ++ [e])
    []

/-- keev.application.Application, reduced to the per-request machinery. -/
structure Application where
  router : Router
  middleware : List Middleware
  pluginsEnabled : Bool := false
  plugins : List Plugin := []

/-- Application.handle_request: router dispatch, then the middleware loop.
The HTTPException translation wraps raising handlers, which the pure
handlers here never do. -/
def Application.handleRequest (app : Application) (req : Request) : Response :=
  applyMiddlewares app.middleware req (app.router.handleRequest req)

/-- Application._handle_http: plugin pre-request hooks (when enabled),
dispatch through handle_request, plugin post-request hooks, then the
response is emitted.  The hook runners swallow hook exceptions
internally, so the hooks cannot reach the surrounding except clause that
produces the 500 response.  Returns the collected hook logs and the
response that is sent. -/
def Application.handleHttp (app : Application) (req : Request) :
    List String × Response :=
  let preLogs := if app.pluginsEnabled then runPreRequest app.plugins req else []
  let resp := app.handleRequest req
  let postLogs := if app.pluginsEnabled then runPostRequest app.plugins req resp else []
  (preLogs ++ postLogs, resp)

/-! ### Application lifecycle (keev.application.Application.startup and shutdown) -/

/-- The lifecycle-relevant state of an Application: the two completion
flags, the registered startup and shutdown handlers (each recorded with
the outcome it produces when invoked), the plugin lifecycle hooks, and
the optional lifespan context manager enter and exit outcomes. -/
structure LifecycleState where
  startupComplete : Bool
  shutdownComplete : Bool
  startupHandlers : List (Except String Unit)
  shutdownHandlers : List (Except String Unit)
  pluginsEnabled : Bool := false
  pluginStartups : List (Except String Unit) := []
  pluginShutdowns : List (Except String Unit) := []
  lifespanEnter : Option (Except String Unit) := none
  lifespanExit : Option (Except String Unit) := none

/-- Run handlers in order, stopping at the first failure, which startup
re-raises; returns the indices of the handlers that were invoked and the
outcome. -/
def runFailFast : List (Except String Unit) → Nat → List Nat × Except String Unit
  | [], _ => ([], Except.ok ())
  | Except.ok _ :: hs, i =>
      let rest := runFailFast hs (i + 1)
      (i :: rest.1, rest.2)
  | Except.error e :: _, i => ([i], Except.error e)

/-- Application.startup: an immediate no-op once the startup-complete
flag is set; otherwise the startup handlers run fail-fast (a failure
propagates and the flag stays unset), the plugin startup hooks run with
every failure caught inside PluginManager.startup, and a failing
lifespan manager enter propagates before the flag is set.  Returns the
new state, the indices of the startup handlers invoked, and the
outcome. -/
def startup (s : LifecycleState) : LifecycleState × List Nat × Except String Unit :=
  if s.startupComplete then (s, [], Except.ok ())
  else
    let ran := runFailFast s.startupHandlers 0
    match ran.2 with
    | Except.error e => (s, ran.1, Except.error e)
    | Except.ok _ =>
        match s.lifespanEnter with
        | some (Except.error e) => (s, ran.1, Except.error e)
        | _ => ({ s with startupComplete := true }, ran.1, Except.ok ())

/-- Application.shutdown: an immediate no-op once the shutdown-complete
flag is set; otherwise every shutdown handler runs with its failure
caught and logged, the plugin shutdown hooks and the lifespan exit are
likewise caught, and the flag is always set at the end.  Returns the new
state, the indices of the shutdown handlers invoked, and the outcome. -/
def shutdown (s : LifecycleState) : LifecycleState × List Nat × Except String Unit :=
  if s.shutdownComplete then (s, [], Except.ok ())
  else
    ({ s with shutdownComplete := true }, List.range s.shutdownHandlers.length, Except.ok ())

/-! ### Concrete fixtures used by the theorems below -/

/-- A handler that ignores its arguments and returns a constant JSON body. -/
def constHandler (tag : String) : Handler :=
  { needsCtx := false, needsRequest := false, bodyModels := []
    run := fun _ => JSONResponse (JVal.s tag) 200 }

/-- A handler that echoes the names of the keyword arguments it received,
making the argument dict observable in the response body. -/
def echoHandler : Handler :=
  { needsCtx := false, needsRequest := false, bodyModels := []
    run := fun kwargs => JSONResponse (JVal.arr (kwargs.map (fun kv => JVal.s kv.1))) 200 }

/-- The handler of the round-trip example: returns the object with key id
bound to the converted item identifier. -/
def idHandler : Handler :=
  { needsCtx := false, needsRequest := false, bodyModels := []
    run := fun kwargs =>
      JSONResponse
        (JVal.obj [("id",
          match kwargs with
          | [(_, PyVal.int n)] => JVal.i n
          | _ => JVal.null)]) 200 }

/-- A static GET route on the path ping. -/
def pingRoute : Route :=
  { pattern := [Seg.lit "", Seg.lit "ping"], methods := ["GET"], handler := constHandler "pong" }

/-- Two routes with identical pattern and method but distinct handlers,
for the registration-order tie-break. -/
def routeA : Route :=
  { pattern := [Seg.lit "", Seg.lit "ping"], methods := ["GET"], handler := constHandler "A" }

/-- Second registration of the same pattern and method. -/
def routeB : Route :=
  { pattern := [Seg.lit "", Seg.lit "ping"], methods := ["GET"], handler := constHandler "B" }

/-- A route carrying a rate limit of zero requests per minute, under
which every request window is exhausted from the start. -/
def rlRoute : Route :=
  { pattern := [Seg.lit "", Seg.lit "limited"], methods := ["GET"], handler := constHandler "ok"
    rateLimit := some { requests := 0, window := 60 } }

/-- The request matching rlRoute. -/
def rlReq : Request := { method := "GET", path := "/limited" }

/-- A route that declares one dependency; its handler echoes the received
argument names. -/
def depRoute : Route :=
  { pattern := [Seg.lit "", Seg.lit "things", Seg.param "item_id" PType.int]
    methods := ["GET"], handler := echoHandler
    dependencies := [{ name := "get_db" }] }

/-- The request matching depRoute. -/
def depReq : Request := { method := "GET", path := "/things/5" }

/-- A zero-parameter POST route on the path items. -/
def c4Route : Route :=
  { pattern := [Seg.lit "", Seg.lit "items"], methods := ["POST"], handler := constHandler "created" }

/-- A GET request to the items path, whose method is registered on no route. -/
def c4Req : Request := { method := "GET", path := "/items" }

/-- The route of the round-trip example with an int-typed capture. -/
def itemsIntRoute : Route :=
  { pattern := [Seg.lit "", Seg.lit "items", Seg.param "item_id" PType.int]
    methods := ["GET"], handler := idHandler }

/-- A middleware that appends a marker to the named header, comma
separated, as in the two-middleware ordering fixture. -/
def appendMarkerMiddleware (hname marker : String) : Middleware :=
  { run := fun req callNext =>
      let resp := callNext req
      match dictGet resp.hdrs (strLower hname) with
      | some old => resp.addHeader hname (old ++ "," ++ marker)
      | none => resp.addHeader hname marker }

/-- An application with one plugin whose pre-request hook always raises. -/
def c7App : Application :=
  { router := mkRouter [pingRoute]
    middleware := []
    pluginsEnabled := true
    plugins := [{ preRequest := fun _ => Except.error "boom"
                  postRequest := fun _ _ => Except.ok () }] }

/-- A GET request to the ping path. -/
def c7Req : Request := { method := "GET", path := "/ping" }

/-- SecurityPlugin.post_request with secure headers on: it calls update on
the object returned by the headers property.  Since that object is a
fresh copy and dict.update is not overridden, the write lands in the
inherited dict storage of the copy; the response itself is returned
untouched alongside the copy that absorbed the write. -/
def securityPostRequest (secureHeaders : Bool) (r : Response) :
    Response × CaseInsensitiveDict :=
  if secureHeaders then
    (r, (r.headers).update
      [("X-Content-Type-Options", "nosniff"),
       ("X-Frame-Options", "DENY"),
       ("X-XSS-Protection", "1; mode=block"),
       ("Strict-Transport-Security", "max-age=31536000; includeSubDomains"),
       ("Content-Security-Policy", "default-src \x27self\x27")])
  else (r, r.headers)

/-- The Python statement assigning through the headers property (item
assignment on the mapping the property returns): the property produces a
fresh CaseInsensitiveDict, setItem mutates that copy, and the response
object is left as it was.  Returns the response afterwards and the
mutated copy. -/
def headersPropertyAssign (r : Response) (k v : String) :
    Response × CaseInsensitiveDict :=
  (r, (r.headers).setItem k v)

/-- A lifecycle state with two succeeding startup handlers and one
shutdown handler, not yet started. -/
def lcState0 : LifecycleState :=
  { startupComplete := false, shutdownComplete := false
    startupHandlers := [Except.ok (), Except.ok ()]
    shutdownHandlers := [Except.ok ()] }

/-! ### Helper lemmas -/

theorem dictGet_dictSet_self (hs : List (String × String)) (k v : String) :
    dictGet (dictSet hs k v) k = some v := by
  induction hs with
  | nil => simp [dictSet, dictGet]
  | cons kv hs ih =>
      by_cases h : kv.1 = k
      · simp [dictSet, dictGet, h]
      · simp [dictSet, dictGet, h, ih]

theorem foldl_addRoute_routes (rs : List Route) (router : Router) :
    (rs.foldl Router.addRoute router).routes = router.routes ++ rs := by
  induction rs generalizing router with
  | nil => simp
  | cons r rs ih => simp [List.foldl_cons, ih, Router.addRoute]

theorem mkRouter_routes (rs : List Route) : (mkRouter rs).routes = rs := by
  simp [mkRouter, foldl_addRoute_routes, Router.empty]

theorem foldl_addRoute_methodRoutes (rs : List Route) (router : Router) (m : String) :
    (rs.foldl Router.addRoute router).methodRoutes m =
      router.methodRoutes m ++ rs.filter (fun r => decide (m ∈ r.methods)) := by
  induction rs generalizing router with
  | nil => simp
  | cons r rs ih =>
      simp only [List.foldl_cons, ih, Router.addRoute]
      by_cases h : m ∈ r.methods
      · simp [h]
      · simp [h]

theorem mkRouter_methodRoutes (rs : List Route) (m : String) :
    (mkRouter rs).methodRoutes m = rs.filter (fun r => decide (m ∈ r.methods)) := by
  simp [mkRouter, foldl_addRoute_methodRoutes, Router.empty]

theorem findMatch_eq_some_iff (rts : List Route) (path : String) (r : Route)
    (ps : List (String × PyVal)) :
    findMatch rts path = some (r, ps) ↔
      ∃ pre post, rts = pre ++ r :: post ∧ (∀ x ∈ pre, x.matchPath path = none) ∧
        r.matchPath path = some ps := by
  constructor
  · intro h
    induction rts with
    | nil => simp [findMatch] at h
    | cons r0 rts ih =>
        cases h0 : r0.matchPath path with
        | some ps0 =>
            simp [findMatch, h0] at h
            obtain ⟨h1, h2⟩ := h
            subst h1
            subst h2
            exact ⟨[], rts, rfl, by simp, h0⟩
        | none =>
            simp [findMatch, h0] at h
            obtain ⟨pre, post, heq, hpre, hr⟩ := ih h
            exact ⟨r0 :: pre, post, by simp [heq], by
              intro x hx
              rcases List.mem_cons.mp hx with hx | hx
              · subst hx; exact h0
              · exact hpre x hx, hr⟩
  · rintro ⟨pre, post, heq, hpre, hr⟩
    subst heq
    induction pre with
    | nil => simp [findMatch, hr]
    | cons x pre ih =>
        have hx : x.matchPath path = none := hpre x (by simp)
        simp only [List.cons_append, findMatch, hx]
        exact ih (fun y hy => hpre y (by simp [hy]))

theorem findMatch_append_some (xs ys : List Route) (path : String)
    (v : Route × List (String × PyVal)) (h : findMatch xs path = some v) :
    findMatch (xs ++ ys) path = some v := by
  induction xs with
  | nil => simp [findMatch] at h
  | cons r xs ih =>
      cases h0 : r.matchPath path with
      | some ps => simp [findMatch, h0] at h ⊢; exact h
      | none =>
          simp [findMatch, h0] at h ⊢
          exact ih h

theorem findMatch_of_exists (xs : List Route) (path : String)
    (h : ∃ r ∈ xs, (r.matchPath path).isSome) :
    ∃ r ps, findMatch xs path = some (r, ps) ∧ r ∈ xs := by
  induction xs with
  | nil => simp at h
  | cons r0 xs ih =>
      cases h0 : r0.matchPath path with
      | some ps0 => exact ⟨r0, ps0, by simp [findMatch, h0], by simp⟩
      | none =>
          obtain ⟨r, hr, hsome⟩ := h
          rcases List.mem_cons.mp hr with hr | hr
          · subst hr; rw [h0] at hsome; simp at hsome
          · obtain ⟨r1, ps1, heq, hmem⟩ := ih ⟨r, hr, hsome⟩
            exact ⟨r1, ps1, by simp [findMatch, h0, heq], by simp [hmem]⟩

theorem allowedMethodsFor_aux (rs : List Route) (path : String) (acc : List String)
    (m : String) :
    m ∈ rs.foldl
        (fun acc r =>
          match r.matchPath path with
          | some ps => if ps.isEmpty then acc else acc ++ r.methods.filter (fun x => ¬ acc.contains x)
          | none => acc)
        acc ↔
      m ∈ acc ∨ ∃ r ∈ rs, (∃ ps, r.matchPath path = some ps ∧ ps ≠ []) ∧ m ∈ r.methods := by
  induction rs generalizing acc with
  | nil => simp
  | cons r rs ih =>
      simp only [List.foldl_cons]
      cases h0 : r.matchPath path with
      | some ps =>
          by_cases hps : ps.isEmpty
          · simp only [h0, hps, if_pos, ih]
            constructor
            · rintro (h | h)
              · exact Or.inl h
              · exact Or.inr (by obtain ⟨x, hx, hm⟩ := h; exact ⟨x, by simp [hx], hm⟩)
            · rintro (h | ⟨x, hx, hcond, hm⟩)
              · exact Or.inl h
              · rcases List.mem_cons.mp hx with hx | hx
                · subst hx
                  obtain ⟨ps2, hps2, hne⟩ := hcond
                  rw [h0] at hps2
                  cases hps2
                  exact absurd (List.isEmpty_iff.mp hps) hne
                · exact Or.inr ⟨x, hx, hcond, hm⟩
          · simp only [h0, hps, if_neg, ih]
            constructor
            · rintro (h | h)
              · rcases List.mem_append.mp h with h | h
                · exact Or.inl h
                · have := List.mem_filter.mp h
                  exact Or.inr ⟨r, by simp, ⟨ps, h0, fun hc => hps (by simp [hc])⟩, this.1⟩
              · obtain ⟨x, hx, hm⟩ := h
                exact Or.inr ⟨x, by simp [hx], hm⟩
            · rintro (h | ⟨x, hx, hcond, hm⟩)
              · exact Or.inl (List.mem_append.mpr (Or.inl h))
              · rcases List.mem_cons.mp hx with hx | hx
                · subst hx
                  by_cases hacc : m ∈ acc
                  · exact Or.inl (List.mem_append.mpr (Or.inl hacc))
                  · refine Or.inl (List.mem_append.mpr (Or.inr ?_))
                    refine List.mem_filter.mpr ⟨hm, ?_⟩
                    simp [hacc]
                · exact Or.inr ⟨x, hx, hcond, hm⟩
      | none =>
          simp only [h0, ih]
          constructor
          · rintro (h | ⟨x, hx, hcond, hm⟩)
            · exact Or.inl h
            · exact Or.inr ⟨x, by simp [hx], hcond, hm⟩
          · rintro (h | ⟨x, hx, hcond, hm⟩)
            · exact Or.inl h
            · rcases List.mem_cons.mp hx with hx | hx
              · subst hx
                obtain ⟨ps2, hps2, _⟩ := hcond
                rw [h0] at hps2
                cases hps2
              · exact Or.inr ⟨x, hx, hcond, hm⟩

theorem allowedMethodsFor_mem (rs : List Route) (path : String) (m : String) :
    m ∈ allowedMethodsFor rs path ↔
      ∃ r ∈ rs, (∃ ps, r.matchPath path = some ps ∧ ps ≠ []) ∧ m ∈ r.methods := by
  have := allowedMethodsFor_aux rs path [] m
  simpa [allowedMethodsFor] using this

theorem matchPath_congr (g : Route → Route) (r : Route)
    (hpat : (g r).pattern = r.pattern) (path : String) :
    (g r).matchPath path = r.matchPath path := by
  simp [Route.matchPath, Route.matchPieces, hpat]

theorem findMatch_map (g : Route → Route) (rs : List Route) (path : String)
    (hm : ∀ r, (g r).matchPath path = r.matchPath path) :
    findMatch (rs.map g) path = (findMatch rs path).map (fun rp => (g rp.1, rp.2)) := by
  induction rs with
  | nil => simp [findMatch]
  | cons r rs ih =>
      cases h0 : r.matchPath path with
      | some ps => simp [findMatch, hm r, h0]
      | none => simp [findMatch, hm r, h0, ih]

theorem filter_map_comm (g : Route → Route) (p : Route → Bool) (rs : List Route) :
    (rs.map g).filter p = (rs.filter (fun r => p (g r))).map g := by
  induction rs with
  | nil => simp
  | cons r rs ih =>
      by_cases h : p (g r)
      · simp [h, ih]
      · simp [h, ih]

theorem allowedMethodsFor_map_aux (g : Route → Route) (rs : List Route) (path : String)
    (hm : ∀ r, (g r).matchPath path = r.matchPath path)
    (hmeth : ∀ r, (g r).methods = r.methods) (acc : List String) :
    (rs.map g).foldl
        (fun acc r =>
          match r.matchPath path with
          | some ps => if ps.isEmpty then acc else acc ++ r.methods.filter (fun x => ¬ acc.contains x)
          | none => acc)
        acc =
      rs.foldl
        (fun acc r =>
          match r.matchPath path with
          | some ps => if ps.isEmpty then acc else acc ++ r.methods.filter (fun x => ¬ acc.contains x)
          | none => acc)
        acc := by
  induction rs generalizing acc with
  | nil => simp
  | cons r rs ih =>
      simp only [List.map_cons, List.foldl_cons, hm r, hmeth r]
      exact ih _

theorem allowedMethodsFor_map (g : Route → Route) (rs : List Route) (path : String)
    (hm : ∀ r, (g r).matchPath path = r.matchPath path)
    (hmeth : ∀ r, (g r).methods = r.methods) :
    allowedMethodsFor (rs.map g) path = allowedMethodsFor rs path :=
  allowedMethodsFor_map_aux g rs path hm hmeth []

theorem handleRequest_dispatch_some (router : Router) (req : Request)
    (rp : Route × List (String × PyVal)) (h : router.dispatch req = some rp) :
    router.handleRequest req =
      match buildKwargs rp.1.handler rp.2 req with
      | Except.ok kwargs => rp.1.handler.run kwargs
      | Except.error e => JSONResponse (JVal.obj [("error", JVal.s e)]) 422 := by
  unfold Router.handleRequest
  rw [h]

theorem handleRequest_dispatch_none (router : Router) (req : Request)
    (h : router.dispatch req = none) :
    router.handleRequest req =
      (if ¬ (allowedMethodsFor router.routes (normalizePath req.path)).isEmpty then
        JSONResponse
          (JVal.obj [("error", JVal.s "Method Not Allowed"),
                     ("allowed_methods",
                      JVal.arr ((allowedMethodsFor router.routes (normalizePath req.path)).map JVal.s))])
          405
          [("Allow", String.intercalate ", " (allowedMethodsFor router.routes (normalizePath req.path)))]
      else
        JSONResponse (JVal.obj [("error", JVal.s "Not Found")]) 404) := by
  unfold Router.handleRequest
  rw [h]

theorem handleRequest_map_congr (g : Route → Route) (rs : List Route) (req : Request)
    (hpat : ∀ r, (g r).pattern = r.pattern)
    (hmeth : ∀ r, (g r).methods = r.methods)
    (hhandler : ∀ r, (g r).handler = r.handler) :
    Router.handleRequest (mkRouter (rs.map g)) req = Router.handleRequest (mkRouter rs) req := by
  have hm : ∀ r, (g r).matchPath (normalizePath req.path) = r.matchPath (normalizePath req.path) :=
    fun r => matchPath_congr g r (hpat r) _
  have hdisp :
      Router.dispatch (mkRouter (rs.map g)) req =
        (Router.dispatch (mkRouter rs) req).map (fun rp => (g rp.1, rp.2)) := by
    simp only [Router.dispatch, mkRouter_methodRoutes]
    rw [show (rs.map g).filter (fun r => decide (req.method ∈ r.methods)) =
          (rs.filter (fun r => decide (req.method ∈ (g r).methods))).map g from
        filter_map_comm g _ rs]
    have heq : (fun r => decide (req.method ∈ (g r).methods)) =
        (fun r => decide (req.method ∈ r.methods)) := by
      funext r
      rw [hmeth r]
    rw [heq]
    exact findMatch_map g _ _ hm
  cases hd : Router.dispatch (mkRouter rs) req with
  | some rp =>
      have h1 : Router.dispatch (mkRouter (rs.map g)) req = some (g rp.1, rp.2) := by
        rw [hdisp, hd]
        rfl
      rw [handleRequest_dispatch_some _ _ _ h1, handleRequest_dispatch_some _ _ _ hd]
      rw [hhandler rp.1]
  | none =>
      have h1 : Router.dispatch (mkRouter (rs.map g)) req = none := by
        rw [hdisp, hd]
        rfl
      rw [handleRequest_dispatch_none _ _ h1, handleRequest_dispatch_none _ _ hd]
      rw [mkRouter_routes, mkRouter_routes,
        allowedMethodsFor_map g rs (normalizePath req.path) hm hmeth]

theorem dispatch_skip (r : Route) (rs : List Route) (req : Request)
    (h : r.matchPath (normalizePath req.path) = none) :
    Router.dispatch (mkRouter (r :: rs)) req = Router.dispatch (mkRouter rs) req := by
  simp only [Router.dispatch, mkRouter_methodRoutes]
  by_cases hmem : req.method ∈ r.methods
  · simp [List.filter_cons, hmem, findMatch, h]
  · simp [List.filter_cons, hmem]

theorem allowedMethodsFor_skip (r : Route) (rs : List Route) (path : String)
    (h : r.matchPath path = none) :
    allowedMethodsFor (r :: rs) path = allowedMethodsFor rs path := by
  simp [allowedMethodsFor, h]

theorem handleRequest_skip (r : Route) (rs : List Route) (req : Request)
    (h : r.matchPath (normalizePath req.path) = none) :
    Router.handleRequest (mkRouter (r :: rs)) req = Router.handleRequest (mkRouter rs) req := by
  cases hd : Router.dispatch (mkRouter rs) req with
  | some rp =>
      rw [handleRequest_dispatch_some _ _ _ ((dispatch_skip r rs req h).trans hd),
        handleRequest_dispatch_some _ _ _ hd]
  | none =>
      rw [handleRequest_dispatch_none _ _ ((dispatch_skip r rs req h).trans hd),
        handleRequest_dispatch_none _ _ hd, mkRouter_routes, mkRouter_routes,
        allowedMethodsFor_skip r rs _ h]

theorem runCalls_allows (lim : RateLimit) (key : String) (times : List ℚ) :
    ∀ (st : String → List ℚ) (cur : List ℚ), st key = cur →
      (cur.length : Int) + times.length ≤ lim.requests →
      (∀ a ∈ cur, ∀ t ∈ times, t - a < (lim.window : ℚ)) →
      (∀ t ∈ times, ∀ u ∈ times, u - t < (lim.window : ℚ)) →
      (runCalls st key lim times).1 = List.replicate times.length true ∧
        (runCalls st key lim times).2 key = cur ++ times := by
  induction times with
  | nil =>
      intro st cur hst _ _ _
      simp [runCalls, hst]
  | cons t ts ih =>
      intro st cur hst hlen hwin hpair
      have hpruned : (st key).filter (fun a => decide (t - a < (lim.window : ℚ))) = cur := by
        rw [hst]
        exact List.filter_eq_self.mpr (fun a ha => by simp [hwin a ha t (by simp)])
      have hlt : ¬ (lim.requests ≤ ((cur.length : Nat) : Int)) := by
        simp only [List.length_cons] at hlen
        push_cast at hlen ⊢
        omega
      have hstep : RateLimiter.isAllowed st key lim t = (true, storeSet st key (cur ++ [t])) := by
        unfold RateLimiter.isAllowed
        rw [hpruned]
        simp [hlt]
      have hstkey : storeSet st key (cur ++ [t]) key = cur ++ [t] := by
        simp [storeSet]
      have hlen2 : ((cur ++ [t]).length : Int) + ts.length ≤ lim.requests := by
        have hlapp : (cur ++ [t]).length = cur.length + 1 := by simp
        rw [hlapp]
        simp only [List.length_cons] at hlen
        push_cast at hlen ⊢
        omega
      have hwin2 : ∀ a ∈ cur ++ [t], ∀ u ∈ ts, u - a < (lim.window : ℚ) := by
        intro a ha u hu
        rcases List.mem_append.mp ha with ha | ha
        · exact hwin a ha u (by simp [hu])
        · have heq : a = t := List.mem_singleton.mp ha
          rw [heq]
          exact hpair t (by simp) u (by simp [hu])
      have hpair2 : ∀ u ∈ ts, ∀ v ∈ ts, v - u < (lim.window : ℚ) := by
        intro u hu v hv
        exact hpair u (by simp [hu]) v (by simp [hv])
      obtain ⟨ih1, ih2⟩ := ih (storeSet st key (cur ++ [t])) (cur ++ [t]) hstkey hlen2 hwin2 hpair2
      constructor
      · simp only [runCalls, hstep, ih1, List.length_cons, List.replicate_succ]
      · simp only [runCalls, hstep, ih2, List.append_assoc, List.singleton_append]

/-! ### Claim theorems -/

/-- C1: for every router and every pair of distinct registered routes whose
patterns and methods both match a request, Router.handle_request selects
whichever was registered first: the dispatch result is exactly the first
successful match of the method-filtered routes in registration order
(first conjunct), and whenever two registered routes both carry the
request method and match the path, the selected route is one registered
no later than the earlier of the two (second conjunct). -/
theorem C1_first_registered_route_wins (rs : List Route) (req : Request) :
    (∀ r ps, Router.dispatch (mkRouter rs) req = some (r, ps) ↔
        ∃ pre post,
          rs.filter (fun x => decide (req.method ∈ x.methods)) = pre ++ r :: post ∧
          (∀ x ∈ pre, x.matchPath (normalizePath req.path) = none) ∧
          r.matchPath (normalizePath req.path) = some ps)
    ∧ (∀ (pre mid post : List Route) (R1 R2 : Route) (ps1 ps2 : List (String × PyVal)),
        rs = pre ++ R1 :: mid ++ R2 :: post →
        req.method ∈ R1.methods → R1.matchPath (normalizePath req.path) = some ps1 →
        req.method ∈ R2.methods → R2.matchPath (normalizePath req.path) = some ps2 →
        ∃ r ps, Router.dispatch (mkRouter rs) req = some (r, ps) ∧ r ∈ pre ++ [R1]) := by
  constructor
  · intro r ps
    simp only [Router.dispatch, mkRouter_methodRoutes]
    exact findMatch_eq_some_iff _ _ _ _
  · intro pre mid post R1 R2 ps1 ps2 heq hm1 hp1 hm2 hp2
    subst heq
    have hfilter :
        (pre ++ R1 :: mid ++ R2 :: post).filter (fun x => decide (req.method ∈ x.methods)) =
          (pre.filter (fun x => decide (req.method ∈ x.methods)) ++ [R1]) ++
            ((mid ++ R2 :: post).filter (fun x => decide (req.method ∈ x.methods))) := by
      simp [List.filter_append, List.filter_cons, hm1]
    obtain ⟨r, ps, hfind, hmem⟩ :=
      findMatch_of_exists (pre.filter (fun x => decide (req.method ∈ x.methods)) ++ [R1])
        (normalizePath req.path) ⟨R1, by simp, by rw [hp1]; rfl⟩
    refine ⟨r, ps, ?_, ?_⟩
    · simp only [Router.dispatch, mkRouter_methodRoutes]
      rw [hfilter]
      exact findMatch_append_some _ _ _ _ hfind
    · rcases List.mem_append.mp hmem with h | h
      · exact List.mem_append.mpr (Or.inl (List.mem_of_mem_filter h))
      · exact List.mem_append.mpr (Or.inr h)

/-- C1 witness: with routeA registered before routeB, both GET routes on
the ping path, dispatch selects a route registered no later than routeA. -/
theorem C1_witness :
    ("GET" ∈ routeA.methods) ∧ routeA.matchPath (normalizePath "/ping") = some [] ∧
    ("GET" ∈ routeB.methods) ∧ routeB.matchPath (normalizePath "/ping") = some [] ∧
    ∃ r ps,
      Router.dispatch (mkRouter [routeA, routeB]) { method := "GET", path := "/ping" } =
        some (r, ps) ∧ r ∈ ([] : List Route) ++ [routeA] := by
  refine ⟨by decide, rfl, by decide, rfl, ?_⟩
  exact (C1_first_registered_route_wins [routeA, routeB]
      { method := "GET", path := "/ping" }).2 [] [] [] routeA routeB [] [] rfl
    (by decide) rfl (by decide) rfl

/-- C2: the claim is refuted by the code: Router.handle_request never
consults any RateLimiter.  A route carrying a rate limit of zero
requests, whose window is exhausted by definition for every key and time
(third conjunct), still has its handler invoked and its 200 response
returned (first conjunct); moreover dispatch is invariant under arbitrary
changes of every registered route rate-limit configuration (fourth
conjunct), so no 429 outcome can depend on it. -/
theorem C2_rate_limit_never_consulted :
    Router.handleRequest (mkRouter [rlRoute]) rlReq = JSONResponse (JVal.s "ok") 200
    ∧ rlRoute.rateLimit = some { requests := 0, window := 60, byKey := "ip" }
    ∧ (∀ (st : String → List ℚ) (now : ℚ),
        (RateLimiter.isAllowed st "ip" { requests := 0, window := 60, byKey := "ip" } now).1 = false)
    ∧ (∀ (rs : List Route) (req : Request) (f : Route → Option RateLimit),
        Router.handleRequest (mkRouter (rs.map (fun r => { r with rateLimit := f r }))) req =
          Router.handleRequest (mkRouter rs) req) := by
  refine ⟨rfl, rfl, ?_, ?_⟩
  · intro st now
    unfold RateLimiter.isAllowed
    simp
  · intro rs req f
    exact handleRequest_map_congr _ rs req (fun r => rfl) (fun r => rfl) (fun r => rfl)

/-- C3: the claim is refuted by the code: Router.handle_request never
resolves route dependencies.  A route declaring one dependency has its
handler invoked with only the path parameter in the argument dict (the
handler echoes the argument names it received), and dispatch is invariant
under arbitrary changes of every registered route dependency list. -/
theorem C3_dependencies_never_resolved :
    Router.handleRequest (mkRouter [depRoute]) depReq = JSONResponse (JVal.arr [JVal.s "item_id"]) 200
    ∧ depRoute.dependencies = [{ name := "get_db" }]
    ∧ (∀ (rs : List Route) (req : Request) (f : Route → List Depends),
        Router.handleRequest (mkRouter (rs.map (fun r => { r with dependencies := f r }))) req =
          Router.handleRequest (mkRouter rs) req) := by
  refine ⟨rfl, rfl, ?_⟩
  intro rs req f
  exact handleRequest_map_congr _ rs req (fun r => rfl) (fun r => rfl) (fun r => rfl)

/-- C4: the claim is refuted by the code at the failing input: the
zero-parameter POST route on the items path matches the GET request path
(first conjunct) while the method differs, yet handle_request answers 404
rather than 405 with an Allow header, because the fallback scan tests the
truthiness of the empty parameter dict. -/
theorem C4_static_route_excluded_from_405 :
    c4Route.matchPath (normalizePath c4Req.path) = some []
    ∧ c4Route.methods = ["POST"] ∧ c4Req.method = "GET"
    ∧ Router.handleRequest (mkRouter [c4Route]) c4Req =
        JSONResponse (JVal.obj [("error", JVal.s "Not Found")]) 404 :=
  ⟨rfl, rfl, rfl, rfl⟩

/-- C5: a capture that fails its converter makes Route.match return no
match rather than an error: any nonempty piece that the int converter
rejects makes the match of the item route return none (first conjunct,
with the concrete instance on the abc piece second); a route whose match
returns none is skipped and dispatch continues with the remaining
registered routes (third conjunct); and the round-trip example holds:
the numeric path yields the converted id and the non-numeric path yields
404, not 422 (last two conjuncts). -/
theorem C5_conversion_failure_is_no_match :
    (∀ piece : String, piece ≠ "" → pyIntParse piece = none →
        itemsIntRoute.matchPieces ["", "items", piece] = none)
    ∧ itemsIntRoute.matchPath "/items/abc" = none
    ∧ (∀ (r : Route) (rs : List Route) (req : Request),
        r.matchPath (normalizePath req.path) = none →
        Router.handleRequest (mkRouter (r :: rs)) req = Router.handleRequest (mkRouter rs) req)
    ∧ Router.handleRequest (mkRouter [itemsIntRoute]) { method := "GET", path := "/items/123" } =
        JSONResponse (JVal.obj [("id", JVal.i 123)]) 200
    ∧ Router.handleRequest (mkRouter [itemsIntRoute]) { method := "GET", path := "/items/abc" } =
        JSONResponse (JVal.obj [("error", JVal.s "Not Found")]) 404 := by
  refine ⟨?_, rfl, ?_, rfl, rfl⟩
  · intro piece h1 h2
    simp [itemsIntRoute, Route.matchPieces, segsExtract, convertCaps, convert, h1, h2]
  · intro r rs req h
    exact handleRequest_skip r rs req h

/-- C5 witness: the generic no-match conjunct applied to the abc piece. -/
theorem C5_witness :
    ("abc" ≠ "") ∧ pyIntParse "abc" = none ∧
      itemsIntRoute.matchPieces ["", "items", "abc"] = none :=
  ⟨by decide, rfl, C5_conversion_failure_is_no_match.1 "abc" (by decide) rfl⟩

/-- C6: with middlewares registered in order A then B, the response
produced by the router passes through B before A, so the first-registered
amendment is applied last: when both append a marker to the same header
of a response that does not yet carry it, the final value is the B marker
followed by the A marker. -/
theorem C6_middleware_reverse_order (router : Router) (req : Request) (hname a b : String)
    (h : dictGet (router.handleRequest req).hdrs (strLower hname) = none) :
    dictGet ((Application.handleRequest
        { router := router
          middleware := [appendMarkerMiddleware hname a, appendMarkerMiddleware hname b] }
        req).hdrs) (strLower hname) = some (b ++ "," ++ a) := by
  have h1 : (appendMarkerMiddleware hname b).run req (fun _ => router.handleRequest req) =
      (router.handleRequest req).addHeader hname b := by
    simp [appendMarkerMiddleware, h]
  have h2 : dictGet ((router.handleRequest req).addHeader hname b).hdrs (strLower hname) =
      some b := by
    simp [Response.addHeader, dictGet_dictSet_self]
  have h3 : (appendMarkerMiddleware hname a).run req
        (fun _ => (router.handleRequest req).addHeader hname b) =
      ((router.handleRequest req).addHeader hname b).addHeader hname (b ++ "," ++ a) := by
    simp [appendMarkerMiddleware, h2]
  show dictGet (applyMiddlewares
      [appendMarkerMiddleware hname a, appendMarkerMiddleware hname b] req
      (router.handleRequest req)).hdrs (strLower hname) = some (b ++ "," ++ a)
  unfold applyMiddlewares
  simp only [List.reverse_cons, List.reverse_nil, List.nil_append, List.singleton_append,
    List.foldl_cons, List.foldl_nil]
  rw [h1, h3]
  simp [Response.addHeader, dictGet_dictSet_self]

/-- C6 witness: the two-middleware fixture on the ping route with markers
A and B produces the header value B comma A. -/
theorem C6_witness :
    dictGet ((mkRouter [pingRoute]).handleRequest
        { method := "GET", path := "/ping" }).hdrs (strLower "x-marker") = none ∧
    dictGet ((Application.handleRequest
        { router := mkRouter [pingRoute]
          middleware := [appendMarkerMiddleware "x-marker" "A", appendMarkerMiddleware "x-marker" "B"] }
        { method := "GET", path := "/ping" }).hdrs) (strLower "x-marker") =
      some ("B" ++ "," ++ "A") :=
  ⟨rfl, C6_middleware_reverse_order (mkRouter [pingRoute])
    { method := "GET", path := "/ping" } "x-marker" "A" "B" rfl⟩

/-- C7 counterexample: the claim as stated is false on the code: an
enabled plugin whose pre-request hook raises does not abort the request;
the exception is swallowed and logged by run_pre_request, dispatch
proceeds, and the 200 response of the handler is sent, not an Internal
Error. -/
theorem C7_counterexample :
    (c7App.plugins.map (fun p => p.preRequest c7Req)) = [Except.error "boom"]
    ∧ c7App.pluginsEnabled = true
    ∧ (c7App.handleHttp c7Req).2 = JSONResponse (JVal.s "pong") 200
    ∧ (c7App.handleHttp c7Req).1 = ["boom"] :=
  ⟨rfl, rfl, rfl, rfl⟩

/-- C7 amended: pre-request hook failures are swallowed and logged inside
run_pre_request; the dispatched response is exactly the plugin-free
dispatch result, for every application and request. -/
theorem C7_pre_hook_failures_swallowed :
    ∀ (app : Application) (req : Request),
      (app.handleHttp req).2 = app.handleRequest req ∧
      (Application.handleHttp { app with plugins := [], pluginsEnabled := false } req).2 =
        (app.handleHttp req).2 :=
  fun _ _ => ⟨rfl, rfl⟩

/-- C8: the sliding window of RateLimiter.is_allowed: from an empty
state, any sequence of at most the configured number of calls whose
times lie pairwise within the window is fully allowed and recorded in
order (first conjunct); a further call while the stored window is full
is rejected without recording a timestamp (second conjunct); once the
whole stored window has aged at least the window length, a call is
allowed again when the limit is positive (third conjunct); and after any
check the stored list for the key holds no timestamp older than now
minus the window, provided the window is positive (fourth conjunct). -/
theorem C8_sliding_window :
    (∀ (lim : RateLimit) (key : String) (times : List ℚ),
        ((times.length : Nat) : Int) ≤ lim.requests →
        (∀ t ∈ times, ∀ u ∈ times, u - t < (lim.window : ℚ)) →
        (runCalls (fun _ => []) key lim times).1 = List.replicate times.length true ∧
          (runCalls (fun _ => []) key lim times).2 key = times)
    ∧ (∀ (lim : RateLimit) (key : String) (st : String → List ℚ) (now : ℚ),
        (∀ a ∈ st key, now - a < (lim.window : ℚ)) →
        lim.requests ≤ ((st key).length : Int) →
        (RateLimiter.isAllowed st key lim now).1 = false ∧
          (RateLimiter.isAllowed st key lim now).2 key = st key)
    ∧ (∀ (lim : RateLimit) (key : String) (st : String → List ℚ) (now : ℚ),
        (∀ a ∈ st key, (lim.window : ℚ) ≤ now - a) → 1 ≤ lim.requests →
        (RateLimiter.isAllowed st key lim now).1 = true)
    ∧ (∀ (lim : RateLimit) (key : String) (st : String → List ℚ) (now : ℚ),
        0 < lim.window →
        ∀ x ∈ (RateLimiter.isAllowed st key lim now).2 key, now - x < (lim.window : ℚ)) := by
  refine ⟨?_, ?_, ?_, ?_⟩
  · intro lim key times hlen hpair
    have h := runCalls_allows lim key times (fun _ => []) [] rfl (by simpa using hlen)
      (by simp) hpair
    simpa using h
  · intro lim key st now hwin hfull
    have hpruned : (st key).filter (fun a => decide (now - a < (lim.window : ℚ))) = st key :=
      List.filter_eq_self.mpr (fun a ha => by simp [hwin a ha])
    constructor
    · unfold RateLimiter.isAllowed
      rw [hpruned]
      simp [hfull]
    · unfold RateLimiter.isAllowed
      rw [hpruned]
      simp [hfull, storeSet]
  · intro lim key st now hold hpos
    have hpruned : (st key).filter (fun a => decide (now - a < (lim.window : ℚ))) = [] := by
      rw [List.filter_eq_nil_iff]
      intro a ha
      simp [not_lt.mpr (hold a ha)]
    unfold RateLimiter.isAllowed
    rw [hpruned]
    have hneg : ¬ (lim.requests ≤ (0 : Int)) := by omega
    simp [hneg]
  · intro lim key st now hw x hx
    unfold RateLimiter.isAllowed at hx
    by_cases hc : lim.requests ≤
        ((((st key).filter (fun a => decide (now - a < (lim.window : ℚ)))).length : Nat) : Int)
    · rw [if_pos hc] at hx
      simp only [storeSet, if_pos] at hx
      simpa using (List.mem_filter.mp hx).2
    · rw [if_neg hc] at hx
      simp only [storeSet, if_pos] at hx
      rcases List.mem_append.mp hx with hx | hx
      · simpa using (List.mem_filter.mp hx).2
      · have hxe : x = now := List.mem_singleton.mp hx
        rw [hxe, sub_self]
        exact_mod_cast hw

/-- C8 witness: a limiter of two requests per ten-second window on one
key allows the calls at times zero and one, rejects a third call at time
two, and allows a call again at time twenty. -/
theorem C8_witness :
    (runCalls (fun _ => []) "k" { requests := 2, window := 10 } [0, 1]).1 = [true, true]
    ∧ (RateLimiter.isAllowed ((runCalls (fun _ => []) "k" { requests := 2, window := 10 } [0, 1]).2)
        "k" { requests := 2, window := 10 } 2).1 = false
    ∧ (RateLimiter.isAllowed ((runCalls (fun _ => []) "k" { requests := 2, window := 10 } [0, 1]).2)
        "k" { requests := 2, window := 10 } 20).1 = true := by
  have hpair : ∀ t ∈ ([0, 1] : List ℚ), ∀ u ∈ ([0, 1] : List ℚ),
      u - t < (((10 : Int) : ℚ)) := by
    intro t ht u hu
    simp only [List.mem_cons, List.mem_singleton, List.not_mem_nil, or_false] at ht hu
    rcases ht with rfl | rfl <;> rcases hu with rfl | rfl <;> norm_num
  have h1 := C8_sliding_window.1 { requests := 2, window := 10 } "k" [0, 1] (by norm_num) hpair
  refine ⟨?_, ?_, ?_⟩
  · rw [h1.1]
    rfl
  · refine (C8_sliding_window.2.1 { requests := 2, window := 10 } "k" _ 2 ?_ ?_).1
    · intro a ha
      rw [h1.2] at ha
      simp only [List.mem_cons, List.mem_singleton, List.not_mem_nil, or_false] at ha
      rcases ha with rfl | rfl <;> norm_num
    · rw [h1.2]
      norm_num
  · refine C8_sliding_window.2.2.1 { requests := 2, window := 10 } "k" _ 20 ?_ ?_
    · intro a ha
      rw [h1.2] at ha
      simp only [List.mem_cons, List.mem_singleton, List.not_mem_nil, or_false] at ha
      rcases ha with rfl | rfl <;> norm_num
    · norm_num

/-- C9: startup and shutdown are idempotent once completed: when a
startup call returns successfully the flag is set and a second call is a
no-op running zero handlers, and after any shutdown call a further call
is a no-op running zero handlers. -/
theorem C9_lifecycle_idempotent :
    (∀ s : LifecycleState, (startup s).2.2 = Except.ok () →
        (startup s).1.startupComplete = true ∧
        startup (startup s).1 = ((startup s).1, [], Except.ok ()))
    ∧ (∀ s : LifecycleState,
        shutdown (shutdown s).1 = ((shutdown s).1, [], Except.ok ())) := by
  constructor
  · intro s h
    by_cases hc : s.startupComplete
    · have hs : startup s = (s, [], Except.ok ()) := by simp [startup, hc]
      rw [hs]
      exact ⟨hc, by simp [startup, hc]⟩
    · cases hr : (runFailFast s.startupHandlers 0).2 with
      | error e =>
          exfalso
          have hbad : (startup s).2.2 = Except.error e := by simp [startup, hc, hr]
          rw [hbad] at h
          exact absurd h (by simp)
      | ok u =>
          cases hl : s.lifespanEnter with
          | none =>
              have hs : startup s =
                  ({ s with startupComplete := true },
                    (runFailFast s.startupHandlers 0).1, Except.ok ()) := by
                simp [startup, hc, hr, hl]
              rw [hs]
              exact ⟨rfl, by simp [startup]⟩
          | some x =>
              cases x with
              | error e =>
                  exfalso
                  have hbad : (startup s).2.2 = Except.error e := by
                    simp [startup, hc, hr, hl]
                  rw [hbad] at h
                  exact absurd h (by simp)
              | ok u2 =>
                  have hs : startup s =
                      ({ s with startupComplete := true },
                        (runFailFast s.startupHandlers 0).1, Except.ok ()) := by
                    simp [startup, hc, hr, hl]
                  rw [hs]
                  exact ⟨rfl, by simp [startup]⟩
  · intro s
    by_cases hc : s.shutdownComplete
    · simp [shutdown, hc]
    · simp [shutdown, hc]

/-- C9 witness: a not yet started state with two succeeding startup
handlers completes, and the second startup call runs zero handlers. -/
theorem C9_witness :
    (startup lcState0).2.2 = Except.ok () ∧
    (startup lcState0).1.startupComplete = true ∧
    startup (startup lcState0).1 = ((startup lcState0).1, [], Except.ok ()) := by
  have h := C9_lifecycle_idempotent.1 lcState0 rfl
  exact ⟨rfl, h.1, h.2⟩

/-- C10: the headers property of a Response is a fresh copy detached from
the stored header dict: the property equals the copy constructor applied
to the stored dict with empty inherited storage; item assignment through
the property mutates only the copy while the response and its emitted
messages are unchanged; the update performed by the security plugin post
hook likewise leaves the response, its emitted messages, and even the
copy store unchanged; and add_header is the operation that does reach
the stored dict and hence the emitted status and header message. -/
theorem C10_headers_property_is_copy :
    (∀ r : Response, r.headers = mkCaseInsensitiveDict r.hdrs ∧ (r.headers).builtin = [])
    ∧ (∀ (r : Response) (k v : String),
        (headersPropertyAssign r k v).1 = r ∧
        (headersPropertyAssign r k v).1.emit = r.emit ∧
        ((headersPropertyAssign r k v).2).store = dictSet (r.headers).store (strLower k) v)
    ∧ (∀ r : Response,
        (securityPostRequest true r).1 = r ∧
        (securityPostRequest true r).1.emit = r.emit ∧
        ((securityPostRequest true r).2).store = (r.headers).store)
    ∧ (∀ (r : Response) (k v : String),
        (r.addHeader k v).hdrs = dictSet r.hdrs (strLower k) v ∧
        (r.addHeader k v).emit =
          [AsgiMessage.start r.status (dictSet r.hdrs (strLower k) v),
           AsgiMessage.bodyChunk r.content false]) :=
  ⟨fun _ => ⟨rfl, rfl⟩, fun _ _ _ => ⟨rfl, rfl, rfl⟩, fun _ => ⟨rfl, rfl, rfl⟩,
    fun _ _ _ => ⟨rfl, rfl⟩⟩

end Keev
